import Mathlib

/-!
Shallow embedding of the monetary core of ExpensePartner
(`src/lib/services/group.service.ts`): rounding, split building, balance
calculation, settlement breakdown and expense-input validation.

JavaScript numbers are modelled as exact rationals (`ℚ`); `Math.round` is
round-half-toward-plus-infinity, `Math.floor` is `Int.floor`, `Math.abs` is
`|·|`.  JavaScript plain objects used as string-keyed number maps are
modelled as association lists with first-occurrence lookup, in-place update
of an existing key and append of a new key (JS object insertion order).
-/

namespace ExpensePartner

/-- JS `Math.round x`: the nearest integer, ties rounded toward `+∞`
(`Math.round (-12.5) = -12`), i.e. `⌊x + 1/2⌋`. -/
def jsRound (q : ℚ) : ℤ := ⌊q + 1/2⌋

/-- `round2` from `group.service.ts`: `Math.round(n * 100) / 100`. -/
def round2 (n : ℚ) : ℚ := (jsRound (n * 100) : ℚ) / 100

/-- `Split` from `expense.types.ts`: one person's share of an expense. -/
structure Split where
  userId : String
  amount : ℚ
deriving DecidableEq, Repr

/-- `User` from `expense.types.ts` (fields relevant to the services). -/
structure User where
  id : String
  name : String
deriving DecidableEq, Repr

/-- `SplitType` from `expense.types.ts`. -/
inductive SplitType where
  | equal
  | custom
deriving DecidableEq, Repr

/-- `Expense` from `expense.types.ts`.  `paidBy` is `Option User` because the
services guard with `expense.paidBy?.id` (the joined row can be missing). -/
structure Expense where
  id : String
  title : String
  amount : ℚ
  paidBy : Option User
  splitType : SplitType
  splits : List Split
deriving DecidableEq, Repr

/-- `expense.paidBy?.id` followed by the falsy guard `if (!payerId) return`:
`none` when there is no payer row or its id is the empty string. -/
def payerId? (e : Expense) : Option String :=
  match e.paidBy with
  | none => none
  | some u => if u.id = "" then none else some u.id

/-! ### JS object as string → number map -/

/-- Map lookup `m[k]` (as `Option`): first entry with the key. -/
def objGet : List (String × ℚ) → String → Option ℚ
  | [], _ => none
  | p :: rest, k => if p.1 = k then some p.2 else objGet rest k

/-- Lookup with default 0, i.e. `m[k] ?? 0`. -/
def getD (m : List (String × ℚ)) (k : String) : ℚ := (objGet m k).getD 0

/-- Assignment `m[k] = v`: update the existing entry in place, or append a
new entry at the end (JS object insertion order). -/
def objSet : List (String × ℚ) → String → ℚ → List (String × ℚ)
  | [], k, v => [(k, v)]
  | p :: rest, k, v => if p.1 = k then (k, v) :: rest else p :: objSet rest k v

/-- Sum of the values of the map (`Object.values(m)` summed). -/
def valuesSum (m : List (String × ℚ)) : ℚ := (m.map (·.2)).sum

/-! ### Validation (`expense-validator` part of `group.service.ts`) -/

/-- Result record `{ valid: boolean; error?: string }`. -/
structure ValidationResult where
  valid : Bool
  error : Option String
deriving DecidableEq, Repr

/-- `FLOAT_EPSILON = 0.01`: tolerance for split-sum comparison. -/
def FLOAT_EPSILON : ℚ := 1/100

/-- `Number.prototype.toFixed(2)` on a nonnegative rational: round to the
nearest cent, ties up, and print with two decimals. -/
def toFixed2Abs (q : ℚ) : String :=
  let cents : ℤ := ⌊q * 100 + 1/2⌋
  let intPart : ℤ := cents / 100
  let fracPart : ℤ := cents % 100
  toString intPart ++ "." ++ (if fracPart < 10 then "0" else "") ++ toString fracPart

/-- `Number.prototype.toFixed(2)`: negative values print as `-` followed by
the rendering of the absolute value. -/
def toFixed2 (q : ℚ) : String :=
  if q < 0 then "-" ++ toFixed2Abs (-q) else toFixed2Abs q

/-- `validateNotEmpty` (title argument ignored by the source). -/
def validateNotEmpty (amount : ℚ) : ValidationResult :=
  if amount = 0 then ⟨false, some "Please enter an amount"⟩
  else ⟨true, none⟩

/-- `validateAmount`.  `Number.isFinite` is always true of a rational, so
the second source branch cannot fire in this model. -/
def validateAmount (amount : ℚ) : ValidationResult :=
  if amount ≤ 0 then ⟨false, some "Amount must be greater than zero"⟩
  else ⟨true, none⟩

/-- `validateSplitTotals`: the split sum must be within `FLOAT_EPSILON` of
the amount (checked first), then no split amount may be negative. -/
def validateSplitTotals (amount : ℚ) (splits : List Split) : ValidationResult :=
  let sum := splits.foldl (fun acc s => acc + s.amount) 0
  let diff := |sum - amount|
  if FLOAT_EPSILON < diff then
    ⟨false, some ("Split total (₹" ++ toFixed2 sum ++ ") must equal expense amount (₹"
      ++ toFixed2 amount ++ ")")⟩
  else if splits.any (fun s => s.amount < 0) then
    ⟨false, some "Split amounts cannot be negative"⟩
  else ⟨true, none⟩

/-- `validateExpenseInput`: not-empty, then positive amount, then (custom
only) split totals. -/
def validateExpenseInput (amount : ℚ) (splitType : SplitType) (splits : List Split) :
    ValidationResult :=
  let notEmpty := validateNotEmpty amount
  if notEmpty.valid = false then notEmpty
  else
    let amountOk := validateAmount amount
    if amountOk.valid = false then amountOk
    else if splitType = SplitType.custom then
      let splitsOk := validateSplitTotals amount splits
      if splitsOk.valid = false then splitsOk else ⟨true, none⟩
    else ⟨true, none⟩

/-! ### Balance calculator (`balance-calculator` part of `group.service.ts`) -/

/-- `buildEqualSplits`: integer cents, floor share, first `remainder`
participants in input order get one extra cent. -/
def buildEqualSplits (amount : ℚ) (participantIds : List String) : List Split :=
  let n := participantIds.length
  if n = 0 then []
  else
    let totalCents : ℤ := jsRound (amount * 100)
    let shareCents : ℤ := ⌊(totalCents : ℚ) / (n : ℚ)⌋
    let remainder : ℤ := totalCents - shareCents * n
    participantIds.enum.map fun p =>
      let cents : ℤ := shareCents + (if (p.1 : ℤ) < remainder then 1 else 0)
      { userId := p.2, amount := (cents : ℚ) / 100 }

/-- Step 2 of `calculateBalances`: one split decreases its member's balance,
rounding after the subtraction. -/
def applySplit (m : List (String × ℚ)) (s : Split) : List (String × ℚ) :=
  objSet m s.userId (round2 (getD m s.userId - round2 s.amount))

/-- One expense of `calculateBalances`: skip if no resolvable payer, credit
the payer with `round2 amount`, then apply each split. -/
def applyExpense (m : List (String × ℚ)) (e : Expense) : List (String × ℚ) :=
  match payerId? e with
  | none => m
  | some pid =>
    let amount := round2 e.amount
    let m1 := objSet m pid (round2 (getD m pid + amount))
    e.splits.foldl applySplit m1

/-- Initialization of `calculateBalances`: every member starts at 0. -/
def initBalances (memberIds : List String) : List (String × ℚ) :=
  memberIds.foldl (fun m id => objSet m id 0) []

/-- `calculateBalances expenses memberIds`: fold the expenses over the
zeroed member map. -/
def calculateBalances (expenses : List Expense) (memberIds : List String) :
    List (String × ℚ) :=
  expenses.foldl applyExpense (initBalances memberIds)

/-! ### Settlement breakdown -/

/-- Accumulator state of the single pass in `getSettlementBreakdown`. -/
structure BreakState where
  totalOwed : ℚ
  totalPaid : ℚ
  giveMap : List (String × ℚ)
  getMap : List (String × ℚ)
deriving Repr

/-- Per-split body of the pass: a split of the viewer adds to `totalOwed`
(and, when the payer is someone else, to the give map); a split of someone
else on a viewer-paid expense adds to the get map. -/
def breakdownSplitStep (viewer pid : String) (st : BreakState) (s : Split) : BreakState :=
  let amt := round2 s.amount
  let st1 :=
    if s.userId = viewer then
      { st with
        totalOwed := st.totalOwed + amt
        giveMap := if pid ≠ viewer then objSet st.giveMap pid (round2 (getD st.giveMap pid + amt))
                   else st.giveMap }
    else st
  if pid = viewer ∧ s.userId ≠ viewer then
    { st1 with getMap := objSet st1.getMap s.userId (round2 (getD st1.getMap s.userId + amt)) }
  else st1

/-- Per-expense body of the pass: skip when there is no resolvable payer,
process every split, then add the rounded amount to `totalPaid` when the
viewer paid. -/
def breakdownExpenseStep (viewer : String) (st : BreakState) (e : Expense) : BreakState :=
  match payerId? e with
  | none => st
  | some pid =>
    let st1 := e.splits.foldl (breakdownSplitStep viewer pid) st
    if pid = viewer then { st1 with totalPaid := st1.totalPaid + round2 e.amount } else st1

/-- Result record of `getSettlementBreakdown`. -/
structure Breakdown where
  totalOwed : ℚ
  totalPaid : ℚ
  getBack : ℚ
  youGive : List (String × ℚ)
  youGet : List (String × ℚ)
deriving Repr

/-- `getSettlementBreakdown expenses currentUserId`: single pass, then filter
both maps to strictly positive entries, round the totals and clamp
`getBack` at zero. -/
def getSettlementBreakdown (expenses : List Expense) (currentUserId : String) : Breakdown :=
  let st := expenses.foldl (breakdownExpenseStep currentUserId) ⟨0, 0, [], []⟩
  let youGive := (st.giveMap.filter (fun p => 0 < p.2)).map fun p => (p.1, round2 p.2)
  let youGet := (st.getMap.filter (fun p => 0 < p.2)).map fun p => (p.1, round2 p.2)
  let totalOwed := round2 st.totalOwed
  let totalPaid := round2 st.totalPaid
  { totalOwed := totalOwed
    totalPaid := totalPaid
    getBack := round2 (max 0 (totalPaid - totalOwed))
    youGive := youGive
    youGet := youGet }

/-! ### Specification-side helper definitions (for stating the theorems) -/

/-- Net effect of one expense on the balance of user `k`: the rounded amount
when `k` is the resolvable payer, minus the rounded split amounts of `k`'s
splits; 0 when the expense has no resolvable payer. -/
def contrib (k : String) (e : Expense) : ℚ :=
  match payerId? e with
  | none => 0
  | some pid =>
    (if pid = k then round2 e.amount else 0)
      - ((e.splits.filter (fun s => s.userId = k)).map (fun s => round2 s.amount)).sum

/-- Net effect of one expense on the sum of all balances: rounded amount
minus the sum of the rounded split amounts, 0 without a resolvable payer. -/
def netContrib (e : Expense) : ℚ :=
  match payerId? e with
  | none => 0
  | some _ => round2 e.amount - (e.splits.map (fun s => round2 s.amount)).sum

/-- User `k` occurs in expense `e` (which must have a resolvable payer) as
the payer or as a split member. -/
def touches (e : Expense) (k : String) : Prop :=
  match payerId? e with
  | none => False
  | some pid => pid = k ∨ k ∈ e.splits.map (·.userId)

/-- Contribution of one expense to the viewer's `totalOwed` in
`getSettlementBreakdown`: rounded split amounts of the viewer's splits,
regardless of who paid; 0 without a resolvable payer. -/
def owedContrib (viewer : String) (e : Expense) : ℚ :=
  match payerId? e with
  | none => 0
  | some _ => ((e.splits.filter (fun s => s.userId = viewer)).map (fun s => round2 s.amount)).sum

/-- A rational is a whole number of cents. -/
def Cent (q : ℚ) : Prop := ∃ n : ℤ, q = (n : ℚ) / 100

/-- Every value stored in the map is a whole number of cents. -/
def MapCent (m : List (String × ℚ)) : Prop := ∀ p ∈ m, Cent p.2

/-! ## Rounding lemmas -/

/-- Characterization of `jsRound`: it is the integer within half a unit of
the argument, the upper boundary excluded (ties go up). -/
theorem jsRound_eq_iff {q : ℚ} {n : ℤ} :
    jsRound q = n ↔ (n : ℚ) - 1/2 ≤ q ∧ q < (n : ℚ) + 1/2 := by
  rw [jsRound, Int.floor_eq_iff]
  constructor
  · rintro ⟨h1, h2⟩
    constructor <;> linarith
  · rintro ⟨h1, h2⟩
    constructor <;> linarith

/-- Evaluation rule for `round2`: if `n` is the half-up rounding of
`x * 100` then `round2 x = n / 100`. -/
theorem round2_eval (x : ℚ) (n : ℤ) (h1 : (n : ℚ) - 1/2 ≤ x * 100)
    (h2 : x * 100 < (n : ℚ) + 1/2) : round2 x = (n : ℚ) / 100 := by
  rw [round2, jsRound_eq_iff.mpr ⟨h1, h2⟩]

/-- Whole numbers of cents are fixed points of `round2`. -/
theorem round2_cent_id {q : ℚ} (h : Cent q) : round2 q = q := by
  obtain ⟨n, rfl⟩ := h
  rw [round2_eval ((n : ℚ) / 100) n (by norm_num) (by norm_num)]

/-- The output of `round2` is a whole number of cents. -/
theorem cent_round2 (q : ℚ) : Cent (round2 q) := ⟨jsRound (q * 100), rfl⟩

/-- Zero is a whole number of cents. -/
theorem cent_zero : Cent 0 := ⟨0, by norm_num⟩

/-- Sums of whole numbers of cents are whole numbers of cents. -/
theorem cent_add {a b : ℚ} (ha : Cent a) (hb : Cent b) : Cent (a + b) := by
  obtain ⟨n, rfl⟩ := ha
  obtain ⟨m, rfl⟩ := hb
  exact ⟨n + m, by push_cast; ring⟩

/-- Differences of whole numbers of cents are whole numbers of cents. -/
theorem cent_sub {a b : ℚ} (ha : Cent a) (hb : Cent b) : Cent (a - b) := by
  obtain ⟨n, rfl⟩ := ha
  obtain ⟨m, rfl⟩ := hb
  exact ⟨n - m, by push_cast; ring⟩

/-- A sum of rounded amounts is a whole number of cents. -/
theorem cent_sum_round2 (l : List ℚ) : Cent ((l.map round2).sum) := by
  induction l with
  | nil => simpa using cent_zero
  | cons a l ih => simpa using cent_add (cent_round2 a) ih

/-! ## Object-map lemmas -/

/-- Reading back the key just assigned yields the assigned value. -/
theorem objGet_objSet_self (m : List (String × ℚ)) (k : String) (v : ℚ) :
    objGet (objSet m k v) k = some v := by
  induction m with
  | nil => simp [objSet, objGet]
  | cons p rest ih =>
    by_cases h : p.1 = k
    · simp [objSet, objGet, h]
    · simp [objSet, objGet, h, ih]

/-- Assignment leaves every other key unchanged. -/
theorem objGet_objSet_ne (m : List (String × ℚ)) (k : String) (v : ℚ) (k' : String)
    (h : k' ≠ k) : objGet (objSet m k v) k' = objGet m k' := by
  induction m with
  | nil => simp [objSet, objGet, Ne.symm h]
  | cons p rest ih =>
    by_cases hp : p.1 = k
    · simp [objSet, objGet, hp, Ne.symm h]
    · by_cases hp' : p.1 = k'
      · simp [objSet, objGet, hp, hp', h]
      · simp [objSet, objGet, hp, hp', ih]

/-- Defaulted read of the key just assigned. -/
theorem getD_objSet_self (m : List (String × ℚ)) (k : String) (v : ℚ) :
    getD (objSet m k v) k = v := by
  simp [getD, objGet_objSet_self]

/-- Defaulted read of any other key after an assignment. -/
theorem getD_objSet_ne (m : List (String × ℚ)) (k : String) (v : ℚ) (k' : String)
    (h : k' ≠ k) : getD (objSet m k v) k' = getD m k' := by
  simp [getD, objGet_objSet_ne m k v k' h]

/-- A key is present after an assignment iff it is the assigned key or was
already present. -/
theorem isSome_objGet_objSet (m : List (String × ℚ)) (k : String) (v : ℚ) (k' : String) :
    (objGet (objSet m k v) k').isSome ↔ k' = k ∨ (objGet m k').isSome := by
  by_cases h : k' = k
  · subst h
    simp [objGet_objSet_self]
  · simp [objGet_objSet_ne m k v k' h, h]

/-- Every entry of an updated map is an old entry or the new pair. -/
theorem mem_objSet {m : List (String × ℚ)} {k : String} {v : ℚ} {p : String × ℚ}
    (h : p ∈ objSet m k v) : p ∈ m ∨ p = (k, v) := by
  induction m with
  | nil => simpa [objSet] using h
  | cons q rest ih =>
    by_cases hq : q.1 = k
    · rw [objSet] at h
      simp only [hq, if_pos] at h
      rcases List.mem_cons.mp h with h | h
      · right; exact h
      · left; exact List.mem_cons_of_mem _ h
    · rw [objSet] at h
      simp only [hq, if_neg, not_false_iff] at h
      rcases List.mem_cons.mp h with h | h
      · left; exact h ▸ List.mem_cons_self _ _
      · rcases ih h with h | h
        · left; exact List.mem_cons_of_mem _ h
        · right; exact h

/-- Assignment changes the value sum by the new value minus the (defaulted)
old value of the key. -/
theorem valuesSum_objSet (m : List (String × ℚ)) (k : String) (v : ℚ) :
    valuesSum (objSet m k v) = valuesSum m + v - getD m k := by
  induction m with
  | nil => simp [objSet, valuesSum, getD, objGet]
  | cons p rest ih =>
    by_cases h : p.1 = k
    · simp only [objSet, h, if_pos, valuesSum, List.map_cons, List.sum_cons, getD, objGet,
        Option.getD_some]
      ring
    · simp only [objSet, h, if_neg, not_false_iff, valuesSum, List.map_cons, List.sum_cons,
        getD, objGet] at ih ⊢
      rw [ih]
      ring

/-- Assigning a whole number of cents preserves `MapCent`. -/
theorem mapCent_objSet {m : List (String × ℚ)} {k : String} {v : ℚ}
    (hm : MapCent m) (hv : Cent v) : MapCent (objSet m k v) := by
  intro p hp
  rcases mem_objSet hp with h | h
  · exact hm p h
  · rw [h]
    exact hv

/-- A successful lookup returns a stored value. -/
theorem objGet_eq_some_mem {m : List (String × ℚ)} {k : String} {v : ℚ}
    (h : objGet m k = some v) : ∃ p ∈ m, p.2 = v := by
  induction m with
  | nil => simp [objGet] at h
  | cons p rest ih =>
    by_cases hp : p.1 = k
    · rw [objGet] at h
      simp only [hp, if_pos] at h
      exact ⟨p, List.mem_cons_self _ _, Option.some_injective _ h⟩
    · rw [objGet] at h
      simp only [hp, if_neg, not_false_iff] at h
      obtain ⟨q, hq, hq2⟩ := ih h
      exact ⟨q, List.mem_cons_of_mem _ hq, hq2⟩

/-- Defaulted reads from a `MapCent` map are whole numbers of cents. -/
theorem cent_getD {m : List (String × ℚ)} (hm : MapCent m) (k : String) :
    Cent (getD m k) := by
  rw [getD]
  cases h : objGet m k with
  | none => exact cent_zero
  | some v =>
    obtain ⟨p, hp, hv⟩ := objGet_eq_some_mem h
    simpa [hv] using hm p hp

/-- A map whose values are all zero has value sum zero. -/
theorem valuesSum_eq_zero {m : List (String × ℚ)} (h : ∀ p ∈ m, p.2 = 0) :
    valuesSum m = 0 := by
  induction m with
  | nil => simp [valuesSum]
  | cons p rest ih =>
    have hp := h p (List.mem_cons_self _ _)
    simp only [valuesSum, List.map_cons, List.sum_cons] at ih ⊢
    rw [hp, ih fun q hq => h q (List.mem_cons_of_mem _ hq), zero_add]

/-! ## Balance-calculator lemmas -/

/-- Applying one split changes the balance of `k` by minus the rounded
split amount when the split is `k`'s, and not at all otherwise. -/
theorem getD_applySplit {m : List (String × ℚ)} (hm : MapCent m) (s : Split) (k : String) :
    getD (applySplit m s) k = getD m k - (if s.userId = k then round2 s.amount else 0) := by
  rw [applySplit]
  have hid : round2 (getD m s.userId - round2 s.amount) = getD m s.userId - round2 s.amount :=
    round2_cent_id (cent_sub (cent_getD hm _) (cent_round2 _))
  by_cases h : s.userId = k
  · subst h
    rw [getD_objSet_self, hid, if_pos rfl]
  · rw [getD_objSet_ne _ _ _ _ (Ne.symm h), if_neg h, sub_zero]

/-- Applying one split preserves `MapCent`. -/
theorem mapCent_applySplit {m : List (String × ℚ)} (hm : MapCent m) (s : Split) :
    MapCent (applySplit m s) :=
  mapCent_objSet hm (cent_round2 _)

/-- Key presence after one split. -/
theorem isSome_applySplit (m : List (String × ℚ)) (s : Split) (k : String) :
    (objGet (applySplit m s) k).isSome ↔ k = s.userId ∨ (objGet m k).isSome :=
  isSome_objGet_objSet m s.userId _ k

/-- Applying one split lowers the value sum by the rounded split amount. -/
theorem valuesSum_applySplit {m : List (String × ℚ)} (hm : MapCent m) (s : Split) :
    valuesSum (applySplit m s) = valuesSum m - round2 s.amount := by
  rw [applySplit, valuesSum_objSet,
    round2_cent_id (cent_sub (cent_getD hm _) (cent_round2 _))]
  ring

/-- Folding a split list: effect on the balance of `k`. -/
theorem getD_splitsFold {m : List (String × ℚ)} (hm : MapCent m) (splits : List Split)
    (k : String) :
    getD (splits.foldl applySplit m) k
      = getD m k - ((splits.filter (fun s => s.userId = k)).map (fun s => round2 s.amount)).sum := by
  induction splits generalizing m with
  | nil => simp
  | cons s rest ih =>
    rw [List.foldl_cons, ih (mapCent_applySplit hm s), getD_applySplit hm]
    by_cases h : s.userId = k
    · simp [List.filter_cons, h]
      ring
    · simp [List.filter_cons, h]

/-- Folding a split list preserves `MapCent`. -/
theorem mapCent_splitsFold {m : List (String × ℚ)} (hm : MapCent m) (splits : List Split) :
    MapCent (splits.foldl applySplit m) := by
  induction splits generalizing m with
  | nil => exact hm
  | cons s rest ih => exact ih (mapCent_applySplit hm s)

/-- Key presence after folding a split list. -/
theorem isSome_splitsFold (m : List (String × ℚ)) (splits : List Split) (k : String) :
    (objGet (splits.foldl applySplit m) k).isSome
      ↔ k ∈ splits.map (·.userId) ∨ (objGet m k).isSome := by
  induction splits generalizing m with
  | nil => simp
  | cons s rest ih =>
    rw [List.foldl_cons, ih, isSome_applySplit]
    simp only [List.map_cons, List.mem_cons]
    tauto

/-- Folding a split list lowers the value sum by all rounded split amounts. -/
theorem valuesSum_splitsFold {m : List (String × ℚ)} (hm : MapCent m) (splits : List Split) :
    valuesSum (splits.foldl applySplit m)
      = valuesSum m - (splits.map (fun s => round2 s.amount)).sum := by
  induction splits generalizing m with
  | nil => simp
  | cons s rest ih =>
    rw [List.foldl_cons, ih (mapCent_applySplit hm s), valuesSum_applySplit hm]
    simp only [List.map_cons, List.sum_cons]
    ring

/-- One expense changes the balance of `k` by `contrib k`. -/
theorem getD_applyExpense {m : List (String × ℚ)} (hm : MapCent m) (e : Expense) (k : String) :
    getD (applyExpense m e) k = getD m k + contrib k e := by
  rw [applyExpense, contrib]
  cases hp : payerId? e with
  | none => simp
  | some pid =>
    dsimp only
    have hm1 : MapCent (objSet m pid (round2 (getD m pid + round2 e.amount))) :=
      mapCent_objSet hm (cent_round2 _)
    rw [getD_splitsFold hm1]
    have hid : round2 (getD m pid + round2 e.amount) = getD m pid + round2 e.amount :=
      round2_cent_id (cent_add (cent_getD hm _) (cent_round2 _))
    by_cases h : pid = k
    · subst h
      rw [getD_objSet_self, hid, if_pos rfl]
      ring
    · rw [getD_objSet_ne _ _ _ _ (Ne.symm h), if_neg h]
      ring

/-- One expense preserves `MapCent`. -/
theorem mapCent_applyExpense {m : List (String × ℚ)} (hm : MapCent m) (e : Expense) :
    MapCent (applyExpense m e) := by
  rw [applyExpense]
  cases hp : payerId? e with
  | none => exact hm
  | some pid => exact mapCent_splitsFold (mapCent_objSet hm (cent_round2 _)) _

/-- Key presence after one expense. -/
theorem isSome_applyExpense (m : List (String × ℚ)) (e : Expense) (k : String) :
    (objGet (applyExpense m e) k).isSome ↔ touches e k ∨ (objGet m k).isSome := by
  rw [applyExpense, touches]
  cases hp : payerId? e with
  | none => simp
  | some pid =>
    rw [isSome_splitsFold, isSome_objGet_objSet]
    constructor
    · rintro (h | h | h)
      · exact Or.inl (Or.inr h)
      · exact Or.inl (Or.inl h.symm)
      · exact Or.inr h
    · rintro ((h | h) | h)
      · exact Or.inr (Or.inl h.symm)
      · exact Or.inl h
      · exact Or.inr (Or.inr h)

/-- One expense changes the value sum by `netContrib`. -/
theorem valuesSum_applyExpense {m : List (String × ℚ)} (hm : MapCent m) (e : Expense) :
    valuesSum (applyExpense m e) = valuesSum m + netContrib e := by
  rw [applyExpense, netContrib]
  cases hp : payerId? e with
  | none => simp
  | some pid =>
    rw [valuesSum_splitsFold (mapCent_objSet hm (cent_round2 _)), valuesSum_objSet,
      round2_cent_id (cent_add (cent_getD hm _) (cent_round2 _))]
    ring

/-- Folding an expense list: effect on the balance of `k`. -/
theorem getD_expensesFold {m : List (String × ℚ)} (hm : MapCent m) (es : List Expense)
    (k : String) :
    getD (es.foldl applyExpense m) k = getD m k + (es.map (contrib k)).sum := by
  induction es generalizing m with
  | nil => simp
  | cons e rest ih =>
    rw [List.foldl_cons, ih (mapCent_applyExpense hm e), getD_applyExpense hm]
    simp only [List.map_cons, List.sum_cons]
    ring

/-- Folding an expense list preserves `MapCent`. -/
theorem mapCent_expensesFold {m : List (String × ℚ)} (hm : MapCent m) (es : List Expense) :
    MapCent (es.foldl applyExpense m) := by
  induction es generalizing m with
  | nil => exact hm
  | cons e rest ih => exact ih (mapCent_applyExpense hm e)

/-- Key presence after folding an expense list. -/
theorem isSome_expensesFold (m : List (String × ℚ)) (es : List Expense) (k : String) :
    (objGet (es.foldl applyExpense m) k).isSome
      ↔ (∃ e ∈ es, touches e k) ∨ (objGet m k).isSome := by
  induction es generalizing m with
  | nil => simp
  | cons e rest ih =>
    rw [List.foldl_cons, ih, isSome_applyExpense]
    simp only [List.mem_cons]
    constructor
    · rintro (⟨e', he', ht⟩ | h | h)
      · exact Or.inl ⟨e', Or.inr he', ht⟩
      · exact Or.inl ⟨e, Or.inl rfl, h⟩
      · exact Or.inr h
    · rintro (⟨e', he' | he', ht⟩ | h)
      · exact Or.inr (Or.inl (he' ▸ ht))
      · exact Or.inl ⟨e', he', ht⟩
      · exact Or.inr (Or.inr h)

/-- Folding an expense list changes the value sum by the net contributions. -/
theorem valuesSum_expensesFold {m : List (String × ℚ)} (hm : MapCent m) (es : List Expense) :
    valuesSum (es.foldl applyExpense m) = valuesSum m + (es.map netContrib).sum := by
  induction es generalizing m with
  | nil => simp
  | cons e rest ih =>
    rw [List.foldl_cons, ih (mapCent_applyExpense hm e), valuesSum_applyExpense hm]
    simp only [List.map_cons, List.sum_cons]
    ring

/-- Lookup in the zeroed member map. -/
theorem objGet_initFold (ms : List String) (m : List (String × ℚ)) (k : String) :
    objGet (ms.foldl (fun m id => objSet m id 0) m) k
      = if k ∈ ms then some 0 else objGet m k := by
  induction ms generalizing m with
  | nil => simp
  | cons id rest ih =>
    rw [List.foldl_cons, ih]
    by_cases h : k ∈ rest
    · simp [h]
    · by_cases hk : k = id
      · subst hk
        simp [h, objGet_objSet_self]
      · simp [h, hk, objGet_objSet_ne _ _ _ _ hk]

/-- Lookup in `initBalances`. -/
theorem objGet_initBalances (ms : List String) (k : String) :
    objGet (initBalances ms) k = if k ∈ ms then some 0 else none := by
  rw [initBalances, objGet_initFold]
  simp [objGet]

/-- Initial defaulted balances are zero. -/
theorem getD_initBalances (ms : List String) (k : String) : getD (initBalances ms) k = 0 := by
  rw [getD, objGet_initBalances]
  by_cases h : k ∈ ms <;> simp [h]

/-- All initial values are zero. -/
theorem initFold_allZero (ms : List String) (m : List (String × ℚ))
    (h : ∀ p ∈ m, p.2 = 0) :
    ∀ p ∈ ms.foldl (fun m id => objSet m id 0) m, p.2 = 0 := by
  induction ms generalizing m with
  | nil => exact h
  | cons id rest ih =>
    rw [List.foldl_cons]
    refine ih _ fun p hp => ?_
    rcases mem_objSet hp with hmem | hmem
    · exact h p hmem
    · rw [hmem]

/-- The initial map is a `MapCent` map. -/
theorem mapCent_initBalances (ms : List String) : MapCent (initBalances ms) := by
  intro p hp
  rw [initFold_allZero ms [] (by simp) p hp]
  exact cent_zero

/-- The initial value sum is zero. -/
theorem valuesSum_initBalances (ms : List String) : valuesSum (initBalances ms) = 0 :=
  valuesSum_eq_zero (initFold_allZero ms [] (by simp))

/-- Balance of `k` after `calculateBalances`: the sum of per-expense
contributions. -/
theorem getD_calculateBalances (es : List Expense) (ms : List String) (k : String) :
    getD (calculateBalances es ms) k = (es.map (contrib k)).sum := by
  rw [calculateBalances, getD_expensesFold (mapCent_initBalances ms), getD_initBalances,
    zero_add]

/-- Key presence in the result of `calculateBalances`. -/
theorem isSome_calculateBalances (es : List Expense) (ms : List String) (k : String) :
    (objGet (calculateBalances es ms) k).isSome ↔ (∃ e ∈ es, touches e k) ∨ k ∈ ms := by
  rw [calculateBalances, isSome_expensesFold, objGet_initBalances]
  by_cases h : k ∈ ms <;> simp [h]

/-- Value sum of the result of `calculateBalances`. -/
theorem valuesSum_calculateBalances (es : List Expense) (ms : List String) :
    valuesSum (calculateBalances es ms) = (es.map netContrib).sum := by
  rw [calculateBalances, valuesSum_expensesFold (mapCent_initBalances ms),
    valuesSum_initBalances, zero_add]

/-! ## Settlement-breakdown lemmas -/

/-- One split adds its rounded amount to `totalOwed` exactly when it is the
viewer's split, regardless of who paid. -/
theorem totalOwed_breakdownSplitStep (viewer pid : String) (st : BreakState) (s : Split) :
    (breakdownSplitStep viewer pid st s).totalOwed
      = st.totalOwed + (if s.userId = viewer then round2 s.amount else 0) := by
  rw [breakdownSplitStep]
  by_cases h : s.userId = viewer <;> split_ifs <;> simp [h]

/-- Folding a split list accumulates the viewer's rounded split amounts
into `totalOwed`. -/
theorem totalOwed_breakdownSplitsFold (viewer pid : String) (splits : List Split)
    (st : BreakState) :
    (splits.foldl (breakdownSplitStep viewer pid) st).totalOwed
      = st.totalOwed
        + ((splits.filter (fun s => s.userId = viewer)).map (fun s => round2 s.amount)).sum := by
  induction splits generalizing st with
  | nil => simp
  | cons s rest ih =>
    rw [List.foldl_cons, ih, totalOwed_breakdownSplitStep]
    by_cases h : s.userId = viewer
    · simp [List.filter_cons, h]
      ring
    · simp [List.filter_cons, h]

/-- One expense adds `owedContrib` to `totalOwed`. -/
theorem totalOwed_breakdownExpenseStep (viewer : String) (st : BreakState) (e : Expense) :
    (breakdownExpenseStep viewer st e).totalOwed = st.totalOwed + owedContrib viewer e := by
  rw [breakdownExpenseStep, owedContrib]
  cases hp : payerId? e with
  | none => simp
  | some pid =>
    dsimp only
    split_ifs <;> simp [totalOwed_breakdownSplitsFold]

/-- Folding the expense list accumulates all `owedContrib`s. -/
theorem totalOwed_breakdownFold (viewer : String) (es : List Expense) (st : BreakState) :
    (es.foldl (breakdownExpenseStep viewer) st).totalOwed
      = st.totalOwed + (es.map (owedContrib viewer)).sum := by
  induction es generalizing st with
  | nil => simp
  | cons e rest ih =>
    rw [List.foldl_cons, ih, totalOwed_breakdownExpenseStep]
    simp only [List.map_cons, List.sum_cons]
    ring

/-! ## Equal-split lemmas -/

/-- Sum over `range n` of the per-participant cents `c`, plus one extra
cent below index `r`: `n * c` plus the truncation `min r n`. -/
theorem sum_cents_range (n : ℕ) (c r : ℤ) (h0 : 0 ≤ r) :
    ((List.range n).map
        (fun (i : ℕ) => ((c + if (i : ℤ) < r then 1 else 0 : ℤ) : ℚ) / 100)).sum
      = ((n : ℚ) * (c : ℚ) + ((min r n : ℤ) : ℚ)) / 100 := by
  induction n with
  | zero =>
    rw [show min r ((0 : ℕ) : ℤ) = 0 from by omega]
    simp
  | succ n ih =>
    rw [List.range_succ, List.map_append, List.sum_append, ih]
    simp only [List.map_cons, List.map_nil, List.sum_cons, List.sum_nil]
    by_cases h : (n : ℤ) < r
    · rw [if_pos h, show min r (((n + 1 : ℕ)) : ℤ) = (n : ℤ) + 1 from by omega,
        show min r (n : ℤ) = (n : ℤ) from by omega]
      push_cast
      ring
    · rw [if_neg h, show min r (((n + 1 : ℕ)) : ℤ) = min r (n : ℤ) from by omega]
      push_cast
      ring

/-- The split amounts of `buildEqualSplits` add up to `round2 amount`
whenever there is at least one participant. -/
theorem buildEqualSplits_sum (amount : ℚ) (ids : List String) (h : ids ≠ []) :
    ((buildEqualSplits amount ids).map (fun s => s.amount)).sum = round2 amount := by
  have hn : ids.length ≠ 0 := fun h0 => h (List.length_eq_zero.mp h0)
  have hnpos : 0 < ids.length := Nat.pos_of_ne_zero hn
  have hnQ : (0 : ℚ) < (ids.length : ℚ) := by exact_mod_cast hnpos
  simp only [buildEqualSplits]
  rw [if_neg hn]
  set t : ℤ := jsRound (amount * 100) with ht
  set c : ℤ := ⌊(t : ℚ) / (ids.length : ℚ)⌋ with hc
  rw [List.map_map]
  show ((ids.enum.map
      ((fun (i : ℕ) => ((c + if (i : ℤ) < t - c * ids.length then 1 else 0 : ℤ) : ℚ) / 100)
        ∘ Prod.fst)).sum) = round2 amount
  rw [← List.map_map, List.enum_map_fst]
  have hc1 : c * (ids.length : ℤ) ≤ t := by
    have h1 : (c : ℚ) ≤ (t : ℚ) / (ids.length : ℚ) := Int.floor_le _
    have h2 : (c : ℚ) * (ids.length : ℚ) ≤ (t : ℚ) := by
      calc (c : ℚ) * (ids.length : ℚ) ≤ ((t : ℚ) / (ids.length : ℚ)) * (ids.length : ℚ) :=
            mul_le_mul_of_nonneg_right h1 (le_of_lt hnQ)
        _ = (t : ℚ) := div_mul_cancel₀ _ (ne_of_gt hnQ)
    exact_mod_cast h2
  have hc2 : t < c * (ids.length : ℤ) + (ids.length : ℤ) := by
    have h1 : (t : ℚ) / (ids.length : ℚ) < (c : ℚ) + 1 := Int.lt_floor_add_one _
    have h2 : (t : ℚ) < ((c : ℚ) + 1) * (ids.length : ℚ) := by
      calc (t : ℚ) = ((t : ℚ) / (ids.length : ℚ)) * (ids.length : ℚ) :=
            (div_mul_cancel₀ _ (ne_of_gt hnQ)).symm
        _ < ((c : ℚ) + 1) * (ids.length : ℚ) := by
            exact mul_lt_mul_of_pos_right h1 hnQ
    have h3 : (t : ℚ) < (c : ℚ) * (ids.length : ℚ) + (ids.length : ℚ) := by linarith
    exact_mod_cast h3
  have hr0 : 0 ≤ t - c * (ids.length : ℤ) := by omega
  rw [sum_cents_range _ _ _ hr0,
    show min (t - c * (ids.length : ℤ)) ((ids.length : ℕ) : ℤ) = t - c * ids.length from by
      omega]
  rw [round2, ← ht]
  push_cast
  ring

/-! ## Validator lemmas -/

/-- The `reduce`-style accumulation of split amounts is their sum. -/
theorem foldl_add_amount (splits : List Split) (a : ℚ) :
    splits.foldl (fun acc s => acc + s.amount) a = a + (splits.map (fun s => s.amount)).sum := by
  induction splits generalizing a with
  | nil => simp
  | cons s rest ih =>
    rw [List.foldl_cons, ih]
    simp only [List.map_cons, List.sum_cons]
    ring

/-- For a positive amount, `validateExpenseInput` with `custom` split type
reduces to the split-totals check. -/
theorem validateExpenseInput_custom (amount : ℚ) (splits : List Split) (hpos : 0 < amount) :
    validateExpenseInput amount SplitType.custom splits
      = if (validateSplitTotals amount splits).valid = false
        then validateSplitTotals amount splits else ⟨true, none⟩ := by
  have h1 : validateNotEmpty amount = ⟨true, none⟩ := by
    rw [validateNotEmpty, if_neg (ne_of_gt hpos)]
  have h2 : validateAmount amount = ⟨true, none⟩ := by
    rw [validateAmount, if_neg (not_le.mpr hpos)]
  rw [validateExpenseInput]
  simp [h1, h2]

/-- When the split sum differs from the amount by more than the tolerance,
the totals check fails with the message embedding both sums. -/
theorem validateSplitTotals_of_gt (amount : ℚ) (splits : List Split)
    (hd : FLOAT_EPSILON < |(splits.map (fun s => s.amount)).sum - amount|) :
    validateSplitTotals amount splits
      = ⟨false, some ("Split total (₹" ++ toFixed2 ((splits.map (fun s => s.amount)).sum)
          ++ ") must equal expense amount (₹" ++ toFixed2 amount ++ ")")⟩ := by
  rw [validateSplitTotals]
  simp only [foldl_add_amount, zero_add]
  rw [if_pos hd]

/-- When the split sum is within tolerance and no split is negative, the
totals check passes. -/
theorem validateSplitTotals_of_le (amount : ℚ) (splits : List Split)
    (hd : ¬ FLOAT_EPSILON < |(splits.map (fun s => s.amount)).sum - amount|)
    (hnn : ∀ s ∈ splits, 0 ≤ s.amount) :
    validateSplitTotals amount splits = ⟨true, none⟩ := by
  rw [validateSplitTotals]
  simp only [foldl_add_amount, zero_add]
  rw [if_neg hd, if_neg]
  simp only [List.any_eq_true, not_exists, not_and]
  intro s hs
  simp only [decide_eq_true_eq, not_lt]
  exact hnn s hs

/-- When the split sum is within tolerance but some split is negative, the
totals check fails with the negative-splits message. -/
theorem validateSplitTotals_of_neg (amount : ℚ) (splits : List Split)
    (hd : ¬ FLOAT_EPSILON < |(splits.map (fun s => s.amount)).sum - amount|)
    (hneg : ∃ s ∈ splits, s.amount < 0) :
    validateSplitTotals amount splits = ⟨false, some "Split amounts cannot be negative"⟩ := by
  rw [validateSplitTotals]
  simp only [foldl_add_amount, zero_add]
  rw [if_neg hd, if_pos]
  obtain ⟨s, hs, hneg⟩ := hneg
  exact List.any_eq_true.mpr ⟨s, hs, decide_eq_true hneg⟩

/-! ## Claim theorems -/

/-- C2: for every positive amount and non-empty participant list, the split
amounts returned by `buildEqualSplits` sum to exactly `round2 amount`. -/
theorem C2_equalSplits_sum_exact (amount : ℚ) (participantIds : List String)
    (_hpos : 0 < amount) (hne : participantIds ≠ []) :
    ((buildEqualSplits amount participantIds).map (fun s => s.amount)).sum = round2 amount :=
  buildEqualSplits_sum amount participantIds hne

/-- C2 witness: `buildEqualSplits 100 [a, b, c]` sums to `round2 100`. -/
theorem C2_witness :
    ((buildEqualSplits 100 ["a", "b", "c"]).map (fun s => s.amount)).sum = round2 100 :=
  C2_equalSplits_sum_exact 100 ["a", "b", "c"] (by norm_num) (by simp)

/-- C4 counterexample: `round2 (-1/8)` is `-0.12`, not the
away-from-zero value `-0.13` that the claim predicts for a scaled value
ending in exactly half a cent (`-1/8 * 100 = -12.5`). -/
theorem C4_counterexample :
    round2 ((-1 : ℚ) / 8) = (-12 : ℚ) / 100 ∧ ((-12 : ℚ) / 100) ≠ ((-13 : ℚ) / 100) := by
  constructor
  · rw [round2_eval ((-1 : ℚ) / 8) (-12) (by norm_num) (by norm_num)]
    norm_num
  · norm_num

/-- C4 (amended): `round2 x` scales by 100 and rounds to the nearest
integer with ties toward `+∞` (JS `Math.round` half-up), then divides by
100; a negative scaled value at exactly half a unit rounds to the integer
of smaller absolute value. -/
theorem C4_round2_half_up (x : ℚ) (n : ℤ) (h1 : (n : ℚ) - 1/2 ≤ x * 100)
    (h2 : x * 100 < (n : ℚ) + 1/2) : round2 x = (n : ℚ) / 100 :=
  round2_eval x n h1 h2

/-- C4 witness: at `x = -1/8` (scaled value `-12.5`) the nearest-integer
window for `-12` contains the scaled value, and `round2` returns `-0.12`. -/
theorem C4_witness :
    (((-12 : ℤ) : ℚ) - 1/2 ≤ (-1 / 8 : ℚ) * 100) ∧ ((-1 / 8 : ℚ) * 100 < ((-12 : ℤ) : ℚ) + 1/2)
      ∧ round2 (-1 / 8 : ℚ) = ((-12 : ℤ) : ℚ) / 100 :=
  ⟨by norm_num, by norm_num, C4_round2_half_up (-1 / 8) (-12) (by norm_num) (by norm_num)⟩

/-- C7: `buildEqualSplits 100 [a, b, c]` gives the first participant the
remainder cent: amounts 33.34, 33.33, 33.33 in input order. -/
theorem C7_first_participants_get_remainder :
    buildEqualSplits 100 ["a", "b", "c"] = [⟨"a", 33.34⟩, ⟨"b", 33.33⟩, ⟨"c", 33.33⟩] := by
  have h1 : jsRound ((100 : ℚ) * 100) = 10000 := jsRound_eq_iff.mpr (by norm_num)
  simp only [buildEqualSplits, h1, List.length_cons, List.length_nil]
  norm_num [List.enum, List.enumFrom]

/-- C8: with a positive (finite) amount and split type `equal`, every
splits list whatsoever validates: the split-sum and negative-split checks
are skipped. -/
theorem C8_equal_skips_split_checks (amount : ℚ) (splits : List Split) (hpos : 0 < amount) :
    (validateExpenseInput amount SplitType.equal splits).valid = true := by
  have h1 : validateNotEmpty amount = ⟨true, none⟩ := by
    rw [validateNotEmpty, if_neg (ne_of_gt hpos)]
  have h2 : validateAmount amount = ⟨true, none⟩ := by
    rw [validateAmount, if_neg (not_le.mpr hpos)]
  rw [validateExpenseInput]
  simp [h1, h2]

/-- C8 witness: a grossly inconsistent negative splits list still validates
under split type `equal`. -/
theorem C8_witness :
    (validateExpenseInput 5 SplitType.equal [⟨"a", -999⟩]).valid = true :=
  C8_equal_skips_split_checks 5 [⟨"a", -999⟩] (by norm_num)

/-- C5: with split type `custom`, a positive amount and non-negative split
amounts, validation fails exactly when the split sum differs from the
amount by strictly more than 0.01; a difference of exactly 0.01 is valid. -/
theorem C5_tolerance_boundary (amount : ℚ) (splits : List Split)
    (hpos : 0 < amount) (hnn : ∀ s ∈ splits, 0 ≤ s.amount) :
    ((validateExpenseInput amount SplitType.custom splits).valid = false
      ↔ 1/100 < |(splits.map (fun s => s.amount)).sum - amount|) := by
  have heps : FLOAT_EPSILON = 1/100 := rfl
  rw [validateExpenseInput_custom amount splits hpos]
  by_cases hd : FLOAT_EPSILON < |(splits.map (fun s => s.amount)).sum - amount|
  · rw [validateSplitTotals_of_gt amount splits hd]
    rw [heps] at hd
    constructor
    · intro _
      exact hd
    · intro _
      rfl
  · rw [validateSplitTotals_of_le amount splits hd hnn]
    rw [heps] at hd
    constructor
    · intro h
      simp at h
    · intro h
      exact absurd h hd

/-- C5 witness: amount 100 with splits 40 and 59.99 (difference exactly
0.01) is accepted. -/
theorem C5_witness :
    (validateExpenseInput 100 SplitType.custom [⟨"a", 40⟩, ⟨"b", 59.99⟩]).valid = true := by
  have h := C5_tolerance_boundary 100 [⟨"a", 40⟩, ⟨"b", 59.99⟩] (by norm_num)
    (by intro s hs; simp at hs; rcases hs with rfl | rfl <;> norm_num)
  have hdiff : ¬ (1/100 : ℚ)
      < |(([⟨"a", 40⟩, ⟨"b", 59.99⟩] : List Split).map (fun s => s.amount)).sum - 100| := by
    rw [not_lt, abs_le]
    constructor <;> norm_num
  cases hb : (validateExpenseInput 100 SplitType.custom [⟨"a", 40⟩, ⟨"b", 59.99⟩]).valid
  · exact absurd (h.mp hb) hdiff
  · rfl

/-- C6 counterexample: amount 100 with the single split −50 is invalid, but
the sum check fires first, so the reported reason is the split-total
message, not the negative-splits message the claim requires. -/
theorem C6_counterexample :
    (validateExpenseInput 100 SplitType.custom [⟨"a", -50⟩]).valid = false
      ∧ (validateExpenseInput 100 SplitType.custom [⟨"a", -50⟩]).error
          ≠ some "Split amounts cannot be negative" := by
  have hd : FLOAT_EPSILON
      < |(([⟨"a", -50⟩] : List Split).map (fun s => s.amount)).sum - 100| := by
    rw [show FLOAT_EPSILON = 1/100 from rfl]
    norm_num
  have hv := validateExpenseInput_custom 100 [⟨"a", -50⟩] (by norm_num)
  rw [validateSplitTotals_of_gt 100 [⟨"a", -50⟩] hd] at hv
  simp only [List.map_cons, List.map_nil, List.sum_cons, List.sum_nil] at hv
  norm_num at hv
  have hf1 : toFixed2 (-50 : ℚ) = "-50.00" := by
    rw [toFixed2, if_pos (by norm_num : (-50 : ℚ) < 0), toFixed2Abs,
      show ⌊(-(-50) : ℚ) * 100 + 1/2⌋ = 5000 from by rw [Int.floor_eq_iff]; norm_num]
    decide
  have hf2 : toFixed2 (100 : ℚ) = "100.00" := by
    rw [toFixed2, if_neg (by norm_num : ¬ (100 : ℚ) < 0), toFixed2Abs,
      show ⌊(100 : ℚ) * 100 + 1/2⌋ = 10000 from by rw [Int.floor_eq_iff]; norm_num]
    decide
  rw [hv, hf1, hf2]
  constructor
  · rfl
  · decide

/-- C6 (amended): with a positive amount and split type `custom`, a
negative split amount always makes validation fail, but the reason is
"Split amounts cannot be negative" only when the split sum is within the
0.01 tolerance of the amount; otherwise the sum-mismatch message is
reported instead. -/
theorem C6_negative_split_invalid (amount : ℚ) (splits : List Split) (hpos : 0 < amount)
    (hneg : ∃ s ∈ splits, s.amount < 0) :
    (validateExpenseInput amount SplitType.custom splits).valid = false
      ∧ (¬ 1/100 < |(splits.map (fun s => s.amount)).sum - amount|
        → (validateExpenseInput amount SplitType.custom splits).error
            = some "Split amounts cannot be negative") := by
  have heps : FLOAT_EPSILON = 1/100 := rfl
  rw [validateExpenseInput_custom amount splits hpos]
  by_cases hd : FLOAT_EPSILON < |(splits.map (fun s => s.amount)).sum - amount|
  · constructor
    · rw [validateSplitTotals_of_gt amount splits hd]
      simp
    · intro h
      rw [heps] at hd
      exact absurd hd h
  · rw [validateSplitTotals_of_neg amount splits hd hneg]
    constructor <;> simp

/-- C6 witness: amount 1 with splits −0.5 and 1.5 (sum exactly 1) fails
with the negative-splits message. -/
theorem C6_witness :
    (validateExpenseInput 1 SplitType.custom [⟨"a", -1/2⟩, ⟨"b", 3/2⟩]).valid = false
      ∧ (validateExpenseInput 1 SplitType.custom [⟨"a", -1/2⟩, ⟨"b", 3/2⟩]).error
          = some "Split amounts cannot be negative" := by
  have h := C6_negative_split_invalid 1 [⟨"a", -1/2⟩, ⟨"b", 3/2⟩] (by norm_num)
    ⟨⟨"a", -1/2⟩, by simp, by norm_num⟩
  exact ⟨h.1, h.2 (by norm_num)⟩

/-- C1 counterexample: a single expense paid by the viewer with the
viewer's own split of 10 yields `totalOwed = 10`, not the 0 the claim
requires for self-paid expenses. -/
theorem C1_counterexample :
    (getSettlementBreakdown [⟨"e1", "t", 10, some ⟨"v", "V"⟩, SplitType.equal, [⟨"v", 10⟩]⟩]
        "v").totalOwed = 10
      ∧ (10 : ℚ) ≠ 0 := by
  have h10 : round2 (10 : ℚ) = 10 := by
    rw [round2_eval 10 1000 (by norm_num) (by norm_num)]
    norm_num
  constructor
  · simp only [getSettlementBreakdown]
    rw [totalOwed_breakdownFold]
    simp [owedContrib, payerId?, h10]
  · norm_num

/-- C1 (amended): `totalOwed` is the rounded sum of the viewer's rounded
split amounts over all expenses with a resolvable payer, including the
expenses the viewer themself paid; only the per-payer give map is
restricted to other payers. -/
theorem C1_totalOwed_includes_self_paid (expenses : List Expense) (viewer : String) :
    (getSettlementBreakdown expenses viewer).totalOwed
      = round2 ((expenses.map (owedContrib viewer)).sum) := by
  simp only [getSettlementBreakdown]
  rw [totalOwed_breakdownFold]
  norm_num

/-- C3 counterexample: two payerful expenses of amount 0.004 with no splits
produce balance sum 0 (each amount rounds to 0 per expense), while the
claim's formula `round2(Σ amounts) − round2(Σ splits)` gives 0.01. -/
theorem C3_counterexample :
    valuesSum (calculateBalances
        [⟨"e1", "t", 1/250, some ⟨"p", "P"⟩, SplitType.equal, []⟩,
          ⟨"e2", "t", 1/250, some ⟨"p", "P"⟩, SplitType.equal, []⟩] ["p"])
      ≠ round2 ((([⟨"e1", "t", 1/250, some ⟨"p", "P"⟩, SplitType.equal, []⟩,
            ⟨"e2", "t", 1/250, some ⟨"p", "P"⟩, SplitType.equal, []⟩] : List Expense).map
              (fun e => e.amount)).sum)
        - round2 ((([⟨"e1", "t", 1/250, some ⟨"p", "P"⟩, SplitType.equal, []⟩,
            ⟨"e2", "t", 1/250, some ⟨"p", "P"⟩, SplitType.equal, []⟩] : List Expense).map
              (fun e => (e.splits.map (fun s => s.amount)).sum)).sum) := by
  have h0 : round2 ((250 : ℚ)⁻¹) = 0 := by
    rw [round2_eval _ 0 (by norm_num) (by norm_num)]
    norm_num
  have h1 : round2 ((1 : ℚ)/125) = 1/100 := by
    rw [round2_eval _ 1 (by norm_num) (by norm_num)]
    norm_num
  have h2 : round2 (0 : ℚ) = 0 := by
    rw [round2_eval _ 0 (by norm_num) (by norm_num)]
    norm_num
  have hL : valuesSum (calculateBalances
      [⟨"e1", "t", 1/250, some ⟨"p", "P"⟩, SplitType.equal, []⟩,
        ⟨"e2", "t", 1/250, some ⟨"p", "P"⟩, SplitType.equal, []⟩] ["p"]) = 0 := by
    rw [valuesSum_calculateBalances]
    simp [netContrib, payerId?, h0]
  rw [hL]
  norm_num [h1, h2]

/-- C3 (amended): the sum of all returned balances equals the sum over
expenses with a resolvable payer of `round2(amount)` minus its splits'
`round2(amount)`s — rounding is applied per expense and per split, not to
the aggregate totals, and payerless expenses are skipped; in the normal
case where each expense's rounded splits sum to its rounded amount this
sum is 0. -/
theorem C3_valuesSum_per_expense_rounding (expenses : List Expense) (memberIds : List String) :
    valuesSum (calculateBalances expenses memberIds) = (expenses.map netContrib).sum :=
  valuesSum_calculateBalances expenses memberIds

/-- C9: permuting the expense list does not change the resulting balance
map — every key is mapped to the same (optional) balance. -/
theorem C9_order_independent (es es' : List Expense) (ms : List String) (k : String)
    (hperm : es.Perm es') :
    objGet (calculateBalances es ms) k = objGet (calculateBalances es' ms) k := by
  have hsum : ((es.map (contrib k)).sum : ℚ) = (es'.map (contrib k)).sum :=
    (hperm.map (contrib k)).sum_eq
  have hiff : (objGet (calculateBalances es ms) k).isSome
      ↔ (objGet (calculateBalances es' ms) k).isSome := by
    rw [isSome_calculateBalances, isSome_calculateBalances]
    constructor
    · rintro (⟨e, he, ht⟩ | hm)
      · exact Or.inl ⟨e, hperm.mem_iff.mp he, ht⟩
      · exact Or.inr hm
    · rintro (⟨e, he, ht⟩ | hm)
      · exact Or.inl ⟨e, hperm.mem_iff.mpr he, ht⟩
      · exact Or.inr hm
  cases h1 : objGet (calculateBalances es ms) k with
  | none =>
    cases h2 : objGet (calculateBalances es' ms) k with
    | none => rfl
    | some w =>
      rw [h1, h2] at hiff
      simp at hiff
  | some v =>
    cases h2 : objGet (calculateBalances es' ms) k with
    | none =>
      rw [h1, h2] at hiff
      simp at hiff
    | some w =>
      have hv : getD (calculateBalances es ms) k = v := by
        rw [getD, h1]
        rfl
      have hw : getD (calculateBalances es' ms) k = w := by
        rw [getD, h2]
        rfl
      rw [getD_calculateBalances] at hv hw
      exact congrArg some (by rw [← hv, ← hw]; exact hsum)

/-- C9 witness: swapping two concrete expenses leaves the balance of a
touched key unchanged. -/
theorem C9_witness :
    objGet (calculateBalances
        [⟨"e1", "t", 1, some ⟨"u", "U"⟩, SplitType.equal, [⟨"w", 1⟩]⟩,
          ⟨"e2", "t", 2, some ⟨"w", "W"⟩, SplitType.equal, []⟩] ["u"]) "w"
      = objGet (calculateBalances
        [⟨"e2", "t", 2, some ⟨"w", "W"⟩, SplitType.equal, []⟩,
          ⟨"e1", "t", 1, some ⟨"u", "U"⟩, SplitType.equal, [⟨"w", 1⟩]⟩] ["u"]) "w" :=
  C9_order_independent _ _ ["u"] "w"
    (List.Perm.swap (⟨"e2", "t", 2, some ⟨"w", "W"⟩, SplitType.equal, []⟩ : Expense)
      (⟨"e1", "t", 1, some ⟨"u", "U"⟩, SplitType.equal, [⟨"w", 1⟩]⟩ : Expense) [])

/-- C10: any user occurring in an expense with a resolvable payer — as the
payer or as a split member — has an entry in the balance map returned by
`calculateBalances`, member or not. -/
theorem C10_expense_users_get_entries (expenses : List Expense) (memberIds : List String)
    (e : Expense) (k pid : String) (he : e ∈ expenses) (hpid : payerId? e = some pid)
    (hk : k = pid ∨ k ∈ e.splits.map (fun s => s.userId)) :
    (objGet (calculateBalances expenses memberIds) k).isSome = true := by
  have ht : touches e k := by
    rw [touches, hpid]
    show pid = k ∨ k ∈ e.splits.map (fun s => s.userId)
    rcases hk with rfl | hk
    · exact Or.inl rfl
    · exact Or.inr hk
  exact (isSome_calculateBalances expenses memberIds k).mpr (Or.inl ⟨e, he, ht⟩)

/-- C10 witness: with no members at all, the split member "q" of an
expense paid by "p" still receives an entry in the returned map. -/
theorem C10_witness :
    (objGet (calculateBalances
        [⟨"e1", "t", 5, some ⟨"p", "P"⟩, SplitType.equal, [⟨"q", 5⟩]⟩] []) "q").isSome
      = true :=
  C10_expense_users_get_entries
    [⟨"e1", "t", 5, some ⟨"p", "P"⟩, SplitType.equal, [⟨"q", 5⟩]⟩] []
    ⟨"e1", "t", 5, some ⟨"p", "P"⟩, SplitType.equal, [⟨"q", 5⟩]⟩ "q" "p"
    (by simp) (by simp [payerId?]) (by simp)

end ExpensePartner
